import Mathlib

/-!
Verification of the SF-Events event-filtering engine
(`src/instacart_chatgpt/services/events/filtering.py`, class `EventFilter`,
and `config.py`).

The shallow embedding below models:
  * loosely-typed event records as association lists of string keys and values;
  * Python `date` objects as proleptic-Gregorian ordinals (`Int`, with
    0001-01-01 = 1), with the calendar conversions ported from CPython's
    `datetime` module;
  * Python floats as exact rationals (`ℚ`);
  * `difflib.SequenceMatcher.ratio` by the Ratcliff-Obershelp matching-block
    algorithm (no autojunk, which only activates on sequences of length ≥ 200);
  * the haversine `calculate_distance` over the reals, for its algebraic laws.

`EventFilter.filter_by_location` dispatches through `cls.calculate_distance`;
since exact float values of the transcendental haversine are not representable
here, the list-level filters take the distance function as an explicit
parameter `dist`, and theorems quantify over it.
-/

namespace SFEvents

/-- A loosely-typed field value of a raw event record: a string, a number
(Python floats modelled as exact rationals), or JSON null / Python `None`. -/
inductive Value where
  | s (t : String)
  | q (x : ℚ)
  | null
deriving DecidableEq, Repr

/-- A raw event record: an insertion-ordered mapping from string keys to
loosely-typed values, as a Python `dict` of the dataset rows. -/
abbrev Record : Type := List (String × Value)

/-- Key lookup, first occurrence (Python `dict` access). -/
def lookupKey (e : Record) (k : String) : Option Value :=
  List.lookup k e

/-- `dict.copy()` followed by `copy[k] = v`: replace the value at an existing
key in place (Python dicts keep the key's position), else append the new key. -/
def setKV : Record → String → Value → Record
  | [], k, v => [(k, v)]
  | (k', v') :: rest, k, v =>
    if k' = k then (k, v) :: rest else (k', v') :: setKV rest k v

/-- Python truthiness of an optional string parameter: `None` and `""` are
falsy. -/
def truthyS : Option String → Bool
  | none => false
  | some t => !t.toList.isEmpty

/-- `event.get(k, "")`: lookup with an empty-string default. -/
def getStrD (e : Record) (k : String) : Value :=
  (lookupKey e k).getD (Value.s "")

/-! ### Character and string utilities (over `List Char`) -/

/-- ASCII lower-casing of one character (`str.lower` on the ASCII range). -/
def lowerChar (c : Char) : Char :=
  if 'A' ≤ c ∧ c ≤ 'Z' then Char.ofNat (c.toNat + 32) else c

/-- `str.lower` over a character list. -/
def lowerL (cs : List Char) : List Char := cs.map lowerChar

/-- Whitespace characters stripped by Python `str.strip()`. -/
def isSpaceChar (c : Char) : Bool :=
  c = ' ' || c = '\t' || c = '\n' || c = '\r' || c = '\x0b' || c = '\x0c'

/-- `str.strip()` over a character list. -/
def trimChars (cs : List Char) : List Char :=
  ((cs.dropWhile isSpaceChar).reverse.dropWhile isSpaceChar).reverse

/-- Decimal digit test. -/
def isDigitChar (c : Char) : Bool := '0' ≤ c && c ≤ '9'

/-- Value of a decimal digit character. -/
def digitVal (c : Char) : Nat := c.toNat - 48

/-- Value of a decimal digit string. -/
def digitsToNat (cs : List Char) : Nat :=
  cs.foldl (fun a c => a * 10 + digitVal c) 0

/-- Whether `pre` is a prefix of `l`, as an executable Boolean. -/
def isPrefixL : List Char → List Char → Bool
  | [], _ => true
  | _ :: _, [] => false
  | a :: as, b :: bs => a = b && isPrefixL as bs

/-- Python's substring containment `needle in hay`. -/
def containsSub (needle : List Char) : List Char → Bool
  | [] => isPrefixL needle []
  | c :: t => isPrefixL needle (c :: t) || containsSub needle t

/-- A word character for `re.split` patterns: ASCII `\w` is alphanumeric or
underscore. -/
def isWordChar (c : Char) : Bool := c.isAlphanum || c = '_'

/-- Accumulating splitter behind `splitTokens`; `cur` holds the current token
reversed. -/
def splitTokensAux : List Char → List Char → List (List Char)
  | [], cur => if cur.isEmpty then [] else [cur.reverse]
  | c :: cs, cur =>
    if isWordChar c then splitTokensAux cs (c :: cur)
    else if cur.isEmpty then splitTokensAux cs []
    else cur.reverse :: splitTokensAux cs []

/-- Tokenisation used by the search and fuzzy matcher:
`[token for token in re.split(r"\W+", s) if token]`. -/
def splitTokens (cs : List Char) : List (List Char) := splitTokensAux cs []

/-- Space-joining of haystack parts (`" ".join(...)`). -/
def joinSpace : List (List Char) → List Char
  | [] => []
  | [x] => x
  | x :: y :: xs => x ++ ' ' :: joinSpace (y :: xs)

/-! ### Calendar arithmetic (ported from CPython `datetime`) -/

/-- Gregorian leap-year test. -/
def isLeapYear (y : Nat) : Bool :=
  y % 4 = 0 && (y % 100 ≠ 0 || y % 400 = 0)

/-- Days in each month of a non-leap year, January first. -/
def daysInMonthTable : List Nat := [31, 28, 31, 30, 31, 30, 31, 31, 30, 31, 30, 31]

/-- Number of days in month `m` (1-12) of year `y`. -/
def days_in_month (y m : Nat) : Nat :=
  if m = 2 && isLeapYear y then 29 else daysInMonthTable.getD (m - 1) 31

/-- Days in year `y` preceding the first of month `m`. -/
def days_before_month (y m : Nat) : Nat :=
  [0, 31, 59, 90, 120, 151, 181, 212, 243, 273, 304, 334].getD (m - 1) 0 +
    (if 2 < m && isLeapYear y then 1 else 0)

/-- Proleptic-Gregorian ordinal of a calendar date (CPython `_ymd2ord`):
0001-01-01 is day 1. -/
def ymd2ord (y m d : Nat) : Int :=
  ((y - 1) * 365 + (y - 1) / 4 - (y - 1) / 100 + (y - 1) / 400 +
    days_before_month y m + d : Nat)

/-- Calendar date of a proleptic-Gregorian ordinal (CPython `_ord2ymd`). -/
def ord2ymd (N : Int) : Nat × Nat × Nat :=
  let n0 := (N - 1).toNat
  let n400 := n0 / 146097
  let r400 := n0 % 146097
  let n100 := r400 / 36524
  let r100 := r400 % 36524
  let n4 := r100 / 1461
  let r4 := r100 % 1461
  let n1 := r4 / 365
  let n := r4 % 365
  let year := n400 * 400 + 1 + n100 * 100 + n4 * 4 + n1
  if n1 = 4 ∨ n100 = 4 then (year - 1, 12, 31)
  else
    let month := (n + 50) / 32
    let preceding := days_before_month year month
    if n < preceding then
      (year, month - 1, n - (preceding - days_in_month year (month - 1)) + 1)
    else
      (year, month, n - preceding + 1)

/-- Decimal digits of a natural number. -/
def natDigits (n : Nat) : List Char := (Nat.repr n).toList

/-- Zero-padded fixed-width decimal rendering. -/
def padNum (w n : Nat) : List Char :=
  List.replicate (w - (natDigits n).length) '0' ++ natDigits n

/-- `date.isoformat()`: `YYYY-MM-DD` rendering of an ordinal date. -/
def isoformat (d : Int) : String :=
  let t := ord2ymd d
  String.mk (padNum 4 t.1 ++ '-' :: padNum 2 t.2.1 ++ '-' :: padNum 2 t.2.2)

/-- `date.weekday()`: Monday = 0, from the ordinal (0001-01-01 was a Monday). -/
def pyWeekday (d : Int) : Int := (d + 6) % 7

/-! ### Date-string parsing (`EventFilter.parse_date_string`) -/

/-- Construct a date after CPython `date(y, m, d)` range validation. -/
def mkValidDate (y m d : Nat) : Option Int :=
  if 1 ≤ y && y ≤ 9999 && 1 ≤ m && m ≤ 12 && 1 ≤ d && d ≤ days_in_month y m then
    some (ymd2ord y m d)
  else none

/-- `datetime.strptime(s, "%Y-%m-%d").date()`: four-digit year, one- or
two-digit month and day, entire string consumed, calendar-validated. -/
def strptime_ymd (cs : List Char) : Option Int :=
  let ys := cs.takeWhile isDigitChar
  let r1 := cs.dropWhile isDigitChar
  if ys.length = 4 then
    match r1 with
    | '-' :: r2 =>
      let ms := r2.takeWhile isDigitChar
      let r3 := r2.dropWhile isDigitChar
      if 1 ≤ ms.length && ms.length ≤ 2 then
        match r3 with
        | '-' :: r4 =>
          let ds := r4.takeWhile isDigitChar
          let r5 := r4.dropWhile isDigitChar
          if 1 ≤ ds.length && ds.length ≤ 2 && r5.isEmpty then
            mkValidDate (digitsToNat ys) (digitsToNat ms) (digitsToNat ds)
          else none
        | _ => none
      else none
    | _ => none
  else none

/-- The extended `YYYY-MM-DD` date part accepted by
`datetime.fromisoformat`. -/
def parse_iso_date_part : List Char → Option Int
  | [y1, y2, y3, y4, '-', m1, m2, '-', d1, d2] =>
    if [y1, y2, y3, y4, m1, m2, d1, d2].all isDigitChar then
      mkValidDate (digitsToNat [y1, y2, y3, y4]) (digitsToNat [m1, m2])
        (digitsToNat [d1, d2])
    else none
  | _ => none

/-- Two decimal digits forming a value below `bound`. -/
def validTwoDigits (a b : Char) (bound : Nat) : Bool :=
  isDigitChar a && isDigitChar b && digitsToNat [a, b] < bound

/-- Trailing UTC-offset syntax accepted after an ISO time: empty, `Z`, or
`±HH:MM`. -/
def tzOk : List Char → Bool
  | [] => true
  | ['Z'] => true
  | ['z'] => true
  | [sgn, h1, h2, ':', m1, m2] =>
    (sgn = '+' || sgn = '-') && validTwoDigits h1 h2 24 && validTwoDigits m1 m2 60
  | _ => false

/-- ISO time-of-day syntax `HH[:MM[:SS]]` with an optional offset, range
validated (fractional seconds have already been truncated by the caller). -/
def timeOk : List Char → Bool
  | h1 :: h2 :: rest =>
    validTwoDigits h1 h2 24 &&
      (match rest with
       | ':' :: m1 :: m2 :: rest2 =>
         validTwoDigits m1 m2 60 &&
           (match rest2 with
            | ':' :: s1 :: s2 :: rest3 => validTwoDigits s1 s2 60 && tzOk rest3
            | _ => tzOk rest2)
       | _ => tzOk rest)
  | _ => false

/-- Split a character list at the first occurrence of `c`; `none` when `c`
does not occur. -/
def splitAtFirst (c : Char) : List Char → Option (List Char × List Char)
  | [] => none
  | x :: xs =>
    if x = c then some ([], xs)
    else
      match splitAtFirst c xs with
      | some p => some (x :: p.1, p.2)
      | none => none

/-- `datetime.fromisoformat(s).date()` for the formats reachable from the
filtering code: an extended calendar date, optionally followed by `T` and a
validated time of day. -/
def fromisoformat_date (cs : List Char) : Option Int :=
  match splitAtFirst 'T' cs with
  | some p =>
    match parse_iso_date_part p.1 with
    | some d => if timeOk p.2 then some d else none
    | none => none
  | none => parse_iso_date_part cs

/-- `date_str.split(".")[0]`: truncate at the first dot, dropping fractional
seconds. -/
def truncDot (cs : List Char) : List Char := cs.takeWhile (fun c => c ≠ '.')

/-- `EventFilter.parse_date_string`: empty input gives no date; strings
containing `T` go through ISO date-time parsing after dot-truncation; other
strings through `%Y-%m-%d`; parse failures give no date instead of raising. -/
def parse_date_string (s : String) : Option Int :=
  let cs := s.toList
  if cs.isEmpty then none
  else if cs.contains 'T' then fromisoformat_date (truncDot cs)
  else strptime_ymd cs

/-- Date parsing of a raw field value: Python `None` is falsy and yields no
date; a non-string value never yields a date (the source treats such records
as date-unknown). -/
def parseDateValue : Value → Option Int
  | Value.s t => parse_date_string t
  | Value.q _ => none
  | Value.null => none

/-! ### Float coercion (`float(...)` on record coordinates) -/

/-- Exponent suffix of a float literal: `e` or `E`, an optional sign, and a
nonempty digit run ending the string. -/
def expPart (r : List Char) (m : ℚ) : Option ℚ :=
  match r with
  | [] => some m
  | e :: rest =>
    if e = 'e' ∨ e = 'E' then
      let p : Int × List Char :=
        match rest with
        | '+' :: t => (1, t)
        | '-' :: t => (-1, t)
        | t => (1, t)
      if p.2.all isDigitChar && !p.2.isEmpty then
        some (m * (10 : ℚ) ^ (p.1 * (digitsToNat p.2 : Int)))
      else none
    else none

/-- Unsigned decimal float literal: digits with an optional single dot and
optional exponent, needing at least one mantissa digit. -/
def parseUnsignedFloat (cs : List Char) : Option ℚ :=
  let ip := cs.takeWhile isDigitChar
  let r1 := cs.dropWhile isDigitChar
  match r1 with
  | '.' :: r2 =>
    let fp := r2.takeWhile isDigitChar
    let r3 := r2.dropWhile isDigitChar
    if ip.isEmpty && fp.isEmpty then none
    else expPart r3 ((digitsToNat (ip ++ fp) : ℚ) / (10 : ℚ) ^ fp.length)
  | _ => if ip.isEmpty then none else expPart r1 (digitsToNat ip)

/-- Python `float(s)` on decimal literals: strip whitespace, optional sign,
then an unsigned literal; anything else raises, modelled as `none`. -/
def parse_float_string (s : String) : Option ℚ :=
  match trimChars s.toList with
  | '+' :: t => parseUnsignedFloat t
  | '-' :: t => (parseUnsignedFloat t).map (fun q => -q)
  | t => parseUnsignedFloat t

/-- `float(value)` on a record field: numbers coerce to themselves, strings
parse as decimal literals, `None` raises `TypeError` (modelled as `none`). -/
def parseFloatVal : Value → Option ℚ
  | Value.q x => some x
  | Value.s t => parse_float_string t
  | Value.null => none

/-- `float(event.get(k, 0))`: an absent key coerces to `0.0`; a present value
goes through float coercion, failure meaning the record is skipped. -/
def coordOf (e : Record) (k : String) : Option ℚ :=
  match lookupKey e k with
  | none => some 0
  | some v => parseFloatVal v

/-- Round-half-to-even to an integer, the tie-breaking used by Python
`round`. -/
def roundHalfEven (q : ℚ) : ℤ :=
  let f := ⌊q⌋
  if q - f < 1 / 2 then f
  else if (1 : ℚ) / 2 < q - f then f + 1
  else if f % 2 = 0 then f else f + 1

/-- `round(q, 2)`: round to two decimal places, ties to even. -/
def round2 (q : ℚ) : ℚ := (roundHalfEven (q * 100) : ℚ) / 100

/-! ### `difflib.SequenceMatcher` similarity (no junk heuristics) -/

/-- Length of the common prefix of two character lists. -/
def commonPfx : List Char → List Char → Nat
  | a :: as, b :: bs => if a = b then commonPfx as bs + 1 else 0
  | _, _ => 0

/-- `find_longest_match` over whole sequences: the longest matching block
`(i, j, size)`, earliest in `a` then in `b` on ties, which is exactly what the
`SequenceMatcher` dynamic programming returns with no junk elements. -/
def bestBlock (a b : List Char) : Nat × Nat × Nat :=
  (List.range a.length).foldl
    (fun best i =>
      (List.range b.length).foldl
        (fun cur j =>
          let k := commonPfx (a.drop i) (b.drop j)
          if cur.2.2 < k then (i, j, k) else cur)
        best)
    (0, 0, 0)

/-- Total size of all matching blocks (the `M` of `ratio`), by the
Ratcliff-Obershelp recursion of `get_matching_blocks`: take the longest
matching block and recurse on both sides.  The fuel bounds the recursion
depth; `a.length + 1` always suffices since every recursive call strictly
shortens the first sequence. -/
def matchTotalFuel : Nat → List Char → List Char → Nat
  | 0, _, _ => 0
  | fuel + 1, a, b =>
    let t := bestBlock a b
    if t.2.2 = 0 then 0
    else
      matchTotalFuel fuel (a.take t.1) (b.take t.2.1) + t.2.2 +
        matchTotalFuel fuel (a.drop (t.1 + t.2.2)) (b.drop (t.2.1 + t.2.2))

/-- Total matched elements between two sequences. -/
def matchTotal (a b : List Char) : Nat := matchTotalFuel (a.length + 1) a b

/-- `SequenceMatcher(None, a, b).ratio()`: `2.0 * M / T`, and `1.0` when both
sequences are empty. -/
def ratio (a b : List Char) : ℚ :=
  if a.length + b.length = 0 then 1
  else 2 * (matchTotal a b : ℚ) / ((a.length : ℚ) + (b.length : ℚ))

/-! ### `EventFilter._fuzzy_match` -/

/-- The inner candidate loop of `_fuzzy_match` for one query token: keep the
best score seen, breaking out as soon as the best reaches 0.75. -/
def tokenBestBreak (tok : List Char) : ℚ → List (List Char) → ℚ
  | best, [] => best
  | best, c :: cs =>
    let score := ratio tok c
    let best2 := if best < score then score else best
    if 3 / 4 ≤ best2 then best2 else tokenBestBreak tok best2 cs

/-- The same candidate loop without the 0.75 early exit: the true maximum
similarity over all haystack tokens.  This is the spec's description of the
loop as a pure optimisation, used to compare against the implementation. -/
def tokenBestFull (tok : List Char) : ℚ → List (List Char) → ℚ
  | best, [] => best
  | best, c :: cs =>
    let score := ratio tok c
    tokenBestFull tok (if best < score then score else best) cs

/-- `EventFilter._fuzzy_match`: whole-string ratio at least 0.55 matches
outright; otherwise average the per-token best scores (with the 0.75 break)
and match when the mean reaches 0.62. -/
def fuzzy_match (query : List Char) (tokens : List (List Char))
    (haystack : List Char) : Bool :=
  if 11 / 20 ≤ ratio query haystack then true
  else if tokens.isEmpty then false
  else
    let hayTokens := splitTokens haystack
    if hayTokens.isEmpty then false
    else
      let scores := tokens.map (fun t => tokenBestBreak t 0 hayTokens)
      if scores.isEmpty then false
      else 31 / 50 ≤ scores.sum / (scores.length : ℚ)

/-- The variant of `_fuzzy_match` described by the spec with the 0.75
short-circuit omitted: every query token's true maximum similarity is
computed before averaging. -/
def fuzzy_match_nobreak (query : List Char) (tokens : List (List Char))
    (haystack : List Char) : Bool :=
  if 11 / 20 ≤ ratio query haystack then true
  else if tokens.isEmpty then false
  else
    let hayTokens := splitTokens haystack
    if hayTokens.isEmpty then false
    else
      let scores := tokens.map (fun t => tokenBestFull t 0 hayTokens)
      if scores.isEmpty then false
      else 31 / 50 ≤ scores.sum / (scores.length : ℚ)

/-! ### The filter stages of `EventFilter` -/

/-- The body of `filter_by_date`'s loop as a drop test: each of the four
`continue` conditions requires the bound to be active (parsed) and the
record's date to be present. -/
def dateDropB (fsf fst fef fet : Option Int) (es en : Option Int) : Bool :=
  (match fsf, es with
   | some f, some d => d < f
   | _, _ => false) ||
  (match fst, es with
   | some t, some d => t < d
   | _, _ => false) ||
  (match fef, en with
   | some f, some d => d < f
   | _, _ => false) ||
  (match fet, en with
   | some t, some d => t < d
   | _, _ => false)

/-- The record loop of `filter_by_date`. -/
def dateLoop (fsf fst fef fet : Option Int) : List Record → List Record
  | [] => []
  | e :: es =>
    if dateDropB fsf fst fef fet
        (parseDateValue (getStrD e "event_start_date"))
        (parseDateValue (getStrD e "event_end_date")) then
      dateLoop fsf fst fef fet es
    else e :: dateLoop fsf fst fef fet es

/-- `cls.parse_date_string(bound) if bound else None`: the parsed form of a
supplied bound; an unsupplied or unparseable bound is inactive. -/
def activeBound (b : Option String) : Option Int :=
  if truthyS b then parse_date_string (b.getD "") else none

/-- `EventFilter.filter_by_date`: pass through when no bound is supplied,
otherwise parse the supplied bounds (an unparseable bound becomes inactive)
and drop records via the four bound checks. -/
def filter_by_date (events : List Record)
    (start_date_from start_date_to end_date_from end_date_to : Option String) :
    List Record :=
  if !(truthyS start_date_from || truthyS start_date_to ||
       truthyS end_date_from || truthyS end_date_to) then events
  else
    dateLoop (activeBound start_date_from) (activeBound start_date_to)
      (activeBound end_date_from) (activeBound end_date_to) events

/-- The `distance_km` sort key of a record: `item.get("distance_km", inf)`,
with `none` standing for the infinite default. -/
def distVal (e : Record) : Option ℚ :=
  match lookupKey e "distance_km" with
  | some (Value.q x) => some x
  | some _ => none
  | none => none

/-- Order on optional sort keys with `none` as plus infinity. -/
def keyLe : Option ℚ → Option ℚ → Bool
  | _, none => true
  | none, some _ => false
  | some a, some b => a ≤ b

/-- The list-sort order of `filter_by_location`: by attached distance,
missing distances last. -/
def distRel (e1 e2 : Record) : Prop := keyLe (distVal e1) (distVal e2) = true

instance : DecidableRel distRel := fun _ _ => decEq _ _

instance : IsTotal Record distRel := by
  constructor
  intro a b
  unfold distRel
  cases h1 : distVal a <;> cases h2 : distVal b <;> simp [keyLe]
  exact le_total _ _

instance : IsTrans Record distRel := by
  constructor
  intro a b c
  unfold distRel
  cases distVal a <;> cases distVal b <;> cases distVal c <;> simp [keyLe]
  exact le_trans

/-- The record loop of `filter_by_location`: coerce both coordinates (a
coercion failure or a zero coordinate skips the record), compute the distance
to the centre and keep the record within the radius, attaching the rounded
distance on a copy. -/
def locLoop (dist : ℚ → ℚ → ℚ → ℚ → ℚ) (lat lon radius : ℚ) :
    List Record → List Record
  | [] => []
  | e :: es =>
    match coordOf e "latitude", coordOf e "longitude" with
    | some la, some lo =>
      if la = 0 ∨ lo = 0 then locLoop dist lat lon radius es
      else if dist lat lon la lo ≤ radius then
        setKV e "distance_km" (Value.q (round2 (dist lat lon la lo))) ::
          locLoop dist lat lon radius es
      else locLoop dist lat lon radius es
    | _, _ => locLoop dist lat lon radius es

/-- `EventFilter.filter_by_location`: pass through unless both centre
coordinates are supplied; otherwise keep nearby records with attached rounded
distances and stable-sort ascending by the attached distance.  The distance
function is the `cls.calculate_distance` the classmethod dispatches to. -/
def filter_by_location (dist : ℚ → ℚ → ℚ → ℚ → ℚ) (events : List Record)
    (latitude longitude : Option ℚ) (radius_km : ℚ) : List Record :=
  match latitude, longitude with
  | some lat, some lon =>
    List.insertionSort distRel (locLoop dist lat lon radius_km events)
  | _, _ => events

/-- `(event.get(k, "") or "")` as text: falsy values collapse to the empty
string. -/
def textOr (e : Record) (k : String) : List Char :=
  match lookupKey e k with
  | some (Value.s t) => t.toList
  | _ => []

/-- `EventFilter.filter_by_category`: case-insensitive substring match on the
`events_category` field. -/
def filter_by_category (events : List Record) (category : Option String) :
    List Record :=
  if !truthyS category then events
  else
    events.filter (fun e =>
      containsSub (lowerL (category.getD "").toList) (lowerL (textOr e "events_category")))

/-- `EventFilter.filter_by_neighborhood`: case-insensitive substring match on
the `analysis_neighborhood` field. -/
def filter_by_neighborhood (events : List Record) (neighborhood : Option String) :
    List Record :=
  if !truthyS neighborhood then events
  else
    events.filter (fun e =>
      containsSub (lowerL (neighborhood.getD "").toList)
        (lowerL (textOr e "analysis_neighborhood")))

/-- The keep test of `filter_upcoming`'s loop. -/
def upcomingKeepB (today : Int) (es en : Option Int) : Bool :=
  (match es with
   | some d => today ≤ d
   | none => false) ||
  (match en with
   | some d => today ≤ d
   | none => false) ||
  (es.isNone && en.isNone)

/-- `EventFilter.filter_upcoming`: keep records whose parsed start or end
date is today or later, and records with neither date parseable. -/
def filter_upcoming (today : Int) : List Record → List Record
  | [] => []
  | e :: es =>
    if upcomingKeepB today
        (parseDateValue (getStrD e "event_start_date"))
        (parseDateValue (getStrD e "event_end_date")) then
      e :: filter_upcoming today es
    else filter_upcoming today es

/-! ### `EventFilter.relative_date_window` -/

/-- The keyword synonym table `RELATIVE_DATE_KEYWORDS` of `config.py`. -/
def RELATIVE_DATE_KEYWORDS : List (String × String) :=
  [("today", "today"), ("tonight", "today"), ("tomorrow", "tomorrow"),
   ("tmrw", "tomorrow"), ("weekend", "weekend"), ("this weekend", "weekend")]

/-- `keyword.strip().lower()`. -/
def normKw (s : String) : String := String.mk (lowerL (trimChars s.toList))

/-- Body of `relative_date_window` on a normalised keyword.  The only
recursion is through the synonym table, whose targets all hit direct cases, so
a fuel of 2 is never exhausted. -/
def rdwAux (today : Int) : Nat → String → Option String × Option String
  | 0, _ => (none, none)
  | fuel + 1, kn =>
    if kn = "" then (none, none)
    else if kn = "today" ∨ kn = "tonight" then
      (some (isoformat today), some (isoformat today))
    else if kn = "tomorrow" ∨ kn = "tmrw" then
      (some (isoformat (today + 1)), some (isoformat (today + 1)))
    else if kn = "weekend" ∨ kn = "this weekend" then
      let saturday := today + (5 - pyWeekday today) % 7
      (some (isoformat saturday), some (isoformat (saturday + 1)))
    else
      match List.lookup kn RELATIVE_DATE_KEYWORDS with
      | some mapped =>
        if !mapped.toList.isEmpty && mapped ≠ kn then rdwAux today fuel (normKw mapped)
        else (none, none)
      | none => (none, none)

/-- `EventFilter.relative_date_window`: an inclusive ISO date-string window
for a recognised keyword, `(none, none)` otherwise. -/
def relative_date_window (today : Int) (keyword : String) :
    Option String × Option String :=
  rdwAux today 2 (normKw keyword)

/-! ### `EventFilter.filter_by_search` -/

/-- Field keys joined into the free-text haystack, in source order. -/
def haystackKeys : List String :=
  ["event_name", "event_details", "analysis_neighborhood", "events_category",
   "location_name", "address"]

/-- `str(part) if part` for one haystack part: absent and falsy values are
skipped; a nonzero number renders via its decimal representation. -/
def partText : Value → Option (List Char)
  | Value.s t => if t.isEmpty then none else some t.toList
  | Value.q x =>
    if x = 0 then none
    else some ((x.num.repr).toList ++ (if x.den = 1 then [] else '/' :: (Nat.repr x.den).toList))
  | Value.null => none

/-- The lower-cased space-joined haystack of a record. -/
def haystackOf (e : Record) : List Char :=
  lowerL (joinSpace (haystackKeys.filterMap (fun k => (lookupKey e k).bind partText)))

/-- The keep test of `filter_by_search`'s loop: an empty haystack skips the
record; otherwise substring containment or fuzzy match. -/
def searchKeepB (query : List Char) (tokens : List (List Char)) (e : Record) :
    Bool :=
  let hay := haystackOf e
  if hay.isEmpty then false
  else containsSub query hay || fuzzy_match query tokens hay

/-- The record loop of `filter_by_search`. -/
def searchLoop (query : List Char) (tokens : List (List Char)) :
    List Record → List Record
  | [] => []
  | e :: es =>
    if searchKeepB query tokens e then e :: searchLoop query tokens es
    else searchLoop query tokens es

/-- `EventFilter.filter_by_search`: free-text filtering over the joined
haystack, passing through on an absent or whitespace-only query. -/
def filter_by_search (events : List Record) (search : Option String) :
    List Record :=
  if !truthyS search then events
  else
    let query := lowerL (trimChars (search.getD "").toList)
    if query.isEmpty then events
    else searchLoop query (splitTokens query) events

/-! ### `EventFilter.apply_all_filters` -/

/-- Python's `a or b` for an optional string `a` and string `b`. -/
def orStr (o : Option String) (s : String) : Option String :=
  if truthyS o then o else some s

/-- The start-bound resolution step of `apply_all_filters`: a supplied
relative-date keyword fills whichever explicit start bounds are absent. -/
def resolveWindow (today : Int) (relative_date : Option String)
    (start_date_from start_date_to : Option String) :
    Option String × Option String :=
  if truthyS relative_date then
    match relative_date_window today (relative_date.getD "") with
    | (some sf, some st) =>
      if !sf.isEmpty && !st.isEmpty then
        (orStr start_date_from sf, orStr start_date_to st)
      else (start_date_from, start_date_to)
    | _ => (start_date_from, start_date_to)
  else (start_date_from, start_date_to)

/-- `EventFilter.apply_all_filters`: the fixed pipeline - upcoming gate,
relative-date resolution, date range, category, neighborhood, free text, and
finally location filtering with its distance sort.  `today` is the fixed
current date and `dist` the distance function used by the location stage. -/
def apply_all_filters (today : Int) (dist : ℚ → ℚ → ℚ → ℚ → ℚ)
    (events : List Record)
    (start_date_from start_date_to end_date_from end_date_to : Option String)
    (latitude longitude : Option ℚ) (radius_km : ℚ)
    (category neighborhood search relative_date : Option String) : List Record :=
  let resolved := resolveWindow today relative_date start_date_from start_date_to
  filter_by_location dist
    (filter_by_search
      (filter_by_neighborhood
        (filter_by_category
          (filter_by_date (filter_upcoming today events)
            resolved.1 resolved.2 end_date_from end_date_to)
          category)
        neighborhood)
      search)
    latitude longitude radius_km

/-! ### `EventFilter.calculate_distance` over the reals -/

/-- Mathematical `atan2` as in `math.atan2`. -/
noncomputable def atan2 (y x : ℝ) : ℝ :=
  if 0 < x then Real.arctan (y / x)
  else if x < 0 then
    (if 0 ≤ y then Real.arctan (y / x) + Real.pi else Real.arctan (y / x) - Real.pi)
  else if 0 < y then Real.pi / 2
  else if y < 0 then -(Real.pi / 2)
  else 0

/-- The haversine intermediate
`sin(dlat/2)**2 + cos(lat1)*cos(lat2)*sin(dlon/2)**2` after converting all
four inputs to radians. -/
noncomputable def haversine_a (lat1 lon1 lat2 lon2 : ℝ) : ℝ :=
  Real.sin ((lat2 * Real.pi / 180 - lat1 * Real.pi / 180) / 2) ^ 2 +
    Real.cos (lat1 * Real.pi / 180) * Real.cos (lat2 * Real.pi / 180) *
      Real.sin ((lon2 * Real.pi / 180 - lon1 * Real.pi / 180) / 2) ^ 2

/-- `EventFilter.calculate_distance`: haversine great-circle distance with an
Earth radius of 6371.0 km, as the idealised real-valued computation. -/
noncomputable def calculate_distance (lat1 lon1 lat2 lon2 : ℝ) : ℝ :=
  6371 *
    (2 * atan2 (Real.sqrt (haversine_a lat1 lon1 lat2 lon2))
      (Real.sqrt (1 - haversine_a lat1 lon1 lat2 lon2)))

/-! ### Stage predicates

Each pipeline stage other than the location filter is equal to `List.filter`
of a Boolean predicate on records; the predicates are named here and the
equations proved below. -/

/-- Keep test of the upcoming filter on a record. -/
def upKeep (today : Int) (e : Record) : Bool :=
  upcomingKeepB today (parseDateValue (getStrD e "event_start_date"))
    (parseDateValue (getStrD e "event_end_date"))

/-- Keep test of the date-range filter on a record, for parsed bounds. -/
def dateKeep (fsf fst fef fet : Option Int) (e : Record) : Bool :=
  !dateDropB fsf fst fef fet (parseDateValue (getStrD e "event_start_date"))
    (parseDateValue (getStrD e "event_end_date"))

/-- Keep test of the category filter (an absent category gives an empty
needle, contained in everything). -/
def catPred (category : Option String) (e : Record) : Bool :=
  containsSub (lowerL ((category.getD "").toList)) (lowerL (textOr e "events_category"))

/-- Keep test of the neighborhood filter. -/
def nbPred (neighborhood : Option String) (e : Record) : Bool :=
  containsSub (lowerL ((neighborhood.getD "").toList))
    (lowerL (textOr e "analysis_neighborhood"))

/-- Keep test of the free-text filter for the raw parameter: inactive or
blank queries keep everything. -/
def searchPredB (se : Option String) (e : Record) : Bool :=
  if truthyS se then
    let q := lowerL (trimChars ((se.getD "").toList))
    if q.isEmpty then true else searchKeepB q (splitTokens q) e
  else true

/-- Keep test of the location filter's loop on a record. -/
def locKeepB (dist : ℚ → ℚ → ℚ → ℚ → ℚ) (lat lon radius : ℚ) (e : Record) : Bool :=
  match coordOf e "latitude", coordOf e "longitude" with
  | some la, some lo =>
    if la = 0 ∨ lo = 0 then false
    else if dist lat lon la lo ≤ radius then true else false
  | _, _ => false

/-- The copy-and-attach step of the location filter's loop. -/
def locAttach (dist : ℚ → ℚ → ℚ → ℚ → ℚ) (lat lon : ℚ) (e : Record) : Record :=
  setKV e "distance_km"
    (Value.q (round2 (dist lat lon ((coordOf e "latitude").getD 0)
      ((coordOf e "longitude").getD 0))))

/-! ### Record-update lemmas -/

theorem lookupKey_nil (k : String) : lookupKey [] k = none := rfl

theorem lookupKey_cons (k0 : String) (v0 : Value) (tl : List (String × Value))
    (k : String) :
    lookupKey ((k0, v0) :: tl) k = if k = k0 then some v0 else lookupKey tl k := by
  simp only [lookupKey, List.lookup]
  by_cases h : k = k0
  · simp [h]
  · have hb : (k == k0) = false := beq_eq_false_iff_ne.mpr h
    simp [h, hb]

theorem lookupKey_setKV_eq (e : Record) (k : String) (v : Value) :
    lookupKey (setKV e k v) k = some v := by
  induction e with
  | nil => simp [setKV, lookupKey_cons]
  | cons hd tl ih =>
    obtain ⟨k0, v0⟩ := hd
    by_cases h0 : k0 = k
    · simp [setKV, h0, lookupKey_cons]
    · rw [show setKV ((k0, v0) :: tl) k v = (k0, v0) :: setKV tl k v by
        simp [setKV, h0]]
      rw [lookupKey_cons, if_neg (Ne.symm h0)]
      exact ih

theorem lookupKey_setKV_ne (e : Record) (k : String) (v : Value) (k' : String)
    (h : k' ≠ k) : lookupKey (setKV e k v) k' = lookupKey e k' := by
  induction e with
  | nil => simp [setKV, lookupKey_cons, lookupKey_nil, h]
  | cons hd tl ih =>
    obtain ⟨k0, v0⟩ := hd
    by_cases h0 : k0 = k
    · subst h0
      rw [show setKV ((k0, v0) :: tl) k0 v = (k0, v) :: tl by simp [setKV]]
      rw [lookupKey_cons, lookupKey_cons, if_neg h, if_neg h]
    · rw [show setKV ((k0, v0) :: tl) k v = (k0, v0) :: setKV tl k v by
        simp [setKV, h0]]
      rw [lookupKey_cons, lookupKey_cons]
      by_cases h1 : k' = k0
      · simp [h1]
      · rw [if_neg h1, if_neg h1]
        exact ih

theorem setKV_setKV (e : Record) (k : String) (v w : Value) :
    setKV (setKV e k v) k w = setKV e k w := by
  induction e with
  | nil => simp [setKV]
  | cons hd tl ih =>
    obtain ⟨k0, v0⟩ := hd
    by_cases h0 : k0 = k
    · simp [setKV, h0]
    · simp [setKV, h0, ih]

theorem getStrD_setKV_ne (e : Record) (k : String) (v : Value) (k' : String)
    (h : k' ≠ k) : getStrD (setKV e k v) k' = getStrD e k' := by
  unfold getStrD
  rw [lookupKey_setKV_ne e k v k' h]

theorem textOr_setKV_ne (e : Record) (k : String) (v : Value) (k' : String)
    (h : k' ≠ k) : textOr (setKV e k v) k' = textOr e k' := by
  unfold textOr
  rw [lookupKey_setKV_ne e k v k' h]

theorem coordOf_setKV_ne (e : Record) (k : String) (v : Value) (k' : String)
    (h : k' ≠ k) : coordOf (setKV e k v) k' = coordOf e k' := by
  unfold coordOf
  rw [lookupKey_setKV_ne e k v k' h]

/-! ### Each stage as a `List.filter` -/

theorem filter_upcoming_eq_filter (today : Int) (l : List Record) :
    filter_upcoming today l = l.filter (upKeep today) := by
  induction l with
  | nil => rfl
  | cons e es ih =>
    simp only [filter_upcoming, List.filter, upKeep]
    split <;> simp_all [upKeep]

theorem dateLoop_eq_filter (a b c d : Option Int) (l : List Record) :
    dateLoop a b c d l = l.filter (dateKeep a b c d) := by
  induction l with
  | nil => rfl
  | cons e es ih =>
    simp only [dateLoop, List.filter, dateKeep]
    cases h : dateDropB a b c d (parseDateValue (getStrD e "event_start_date"))
      (parseDateValue (getStrD e "event_end_date")) <;>
      simp_all [dateKeep]

theorem dateKeep_none (e : Record) : dateKeep none none none none e = true := rfl

theorem filter_by_date_eq_filter (l : List Record)
    (sdf sdt edf edt : Option String) :
    filter_by_date l sdf sdt edf edt =
      l.filter (dateKeep (activeBound sdf) (activeBound sdt)
        (activeBound edf) (activeBound edt)) := by
  unfold filter_by_date
  split
  · next h =>
    simp only [Bool.not_eq_true', Bool.or_eq_false_iff] at h
    obtain ⟨⟨⟨h1, h2⟩, h3⟩, h4⟩ := h
    have e1 : activeBound sdf = none := by simp [activeBound, h1]
    have e2 : activeBound sdt = none := by simp [activeBound, h2]
    have e3 : activeBound edf = none := by simp [activeBound, h3]
    have e4 : activeBound edt = none := by simp [activeBound, h4]
    rw [e1, e2, e3, e4]
    exact (List.filter_eq_self.mpr (fun a _ => dateKeep_none a)).symm
  · exact dateLoop_eq_filter _ _ _ _ l

theorem containsSub_nil (h : List Char) : containsSub [] h = true := by
  cases h <;> simp [containsSub, isPrefixL]

theorem truthyS_false_toList (c : Option String) (h : truthyS c = false) :
    ((c.getD "").toList) = [] := by
  cases c with
  | none => rfl
  | some t =>
    simp only [truthyS, Bool.not_eq_false', List.isEmpty_iff] at h
    simpa using h

theorem filter_by_category_eq_filter (l : List Record) (c : Option String) :
    filter_by_category l c = l.filter (catPred c) := by
  unfold filter_by_category catPred
  split
  · next h =>
    simp only [Bool.not_eq_true'] at h
    rw [truthyS_false_toList c h]
    simp [lowerL, containsSub_nil, List.filter_eq_self]
  · rfl

theorem filter_by_neighborhood_eq_filter (l : List Record) (c : Option String) :
    filter_by_neighborhood l c = l.filter (nbPred c) := by
  unfold filter_by_neighborhood nbPred
  split
  · next h =>
    simp only [Bool.not_eq_true'] at h
    rw [truthyS_false_toList c h]
    simp [lowerL, containsSub_nil, List.filter_eq_self]
  · rfl

theorem searchLoop_eq_filter (q : List Char) (toks : List (List Char))
    (l : List Record) : searchLoop q toks l = l.filter (searchKeepB q toks) := by
  induction l with
  | nil => rfl
  | cons e es ih =>
    simp only [searchLoop, List.filter]
    cases h : searchKeepB q toks e <;> simp_all

theorem filter_true_self (l : List Record) (p : Record → Bool)
    (hp : ∀ e, p e = true) : l.filter p = l :=
  List.filter_eq_self.mpr (fun a _ => hp a)

theorem filter_by_search_eq_filter (l : List Record) (se : Option String) :
    filter_by_search l se = l.filter (searchPredB se) := by
  by_cases h : truthyS se = true
  · by_cases hq : lowerL (trimChars ((se.getD "").data)) = []
    · rw [show filter_by_search l se = l by
        simp [filter_by_search, String.toList, h, hq]]
      exact (filter_true_self l _
        (fun e => by simp [searchPredB, String.toList, h, hq])).symm
    · rw [show filter_by_search l se =
          searchLoop (lowerL (trimChars ((se.getD "").toList)))
            (splitTokens (lowerL (trimChars ((se.getD "").toList)))) l by
        simp [filter_by_search, String.toList, h, hq]]
      rw [searchLoop_eq_filter]
      exact List.filter_congr
        (fun e _ => by simp [searchPredB, String.toList, h, hq])
  · rw [show filter_by_search l se = l by simp [filter_by_search, h]]
    exact (filter_true_self l _ (fun e => by simp [searchPredB, h])).symm

theorem locLoop_eq (dist : ℚ → ℚ → ℚ → ℚ → ℚ) (lat lon radius : ℚ)
    (l : List Record) :
    locLoop dist lat lon radius l =
      (l.filter (locKeepB dist lat lon radius)).map (locAttach dist lat lon) := by
  induction l with
  | nil => rfl
  | cons e es ih =>
    cases h1 : coordOf e "latitude" with
    | none =>
      have hk : locKeepB dist lat lon radius e = false := by simp [locKeepB, h1]
      simp [locLoop, h1, List.filter_cons, hk, ih]
    | some la =>
      cases h2 : coordOf e "longitude" with
      | none =>
        have hk : locKeepB dist lat lon radius e = false := by simp [locKeepB, h1, h2]
        simp [locLoop, h1, h2, List.filter_cons, hk, ih]
      | some lo =>
        by_cases hz : la = 0 ∨ lo = 0
        · have hk : locKeepB dist lat lon radius e = false := by
            simp [locKeepB, h1, h2, hz]
          simp [locLoop, h1, h2, hz, List.filter_cons, hk, ih]
        · by_cases hr : dist lat lon la lo ≤ radius
          · have hk : locKeepB dist lat lon radius e = true := by
              simp [locKeepB, h1, h2, hz, hr]
            have ha : locAttach dist lat lon e =
                setKV e "distance_km" (Value.q (round2 (dist lat lon la lo))) := by
              simp [locAttach, h1, h2]
            simp [locLoop, h1, h2, hz, hr, List.filter_cons, hk, ha, ih]
          · have hk : locKeepB dist lat lon radius e = false := by
              simp [locKeepB, h1, h2, hz, hr]
            simp [locLoop, h1, h2, hz, hr, List.filter_cons, hk, ih]

theorem filter_by_location_some (dist : ℚ → ℚ → ℚ → ℚ → ℚ) (l : List Record)
    (lat lon radius : ℚ) :
    filter_by_location dist l (some lat) (some lon) radius =
      List.insertionSort distRel
        ((l.filter (locKeepB dist lat lon radius)).map (locAttach dist lat lon)) := by
  simp [filter_by_location, locLoop_eq]

/-! ### Predicate stability under distance attachment -/

theorem upKeep_setKV_dist (today : Int) (e : Record) (v : Value) :
    upKeep today (setKV e "distance_km" v) = upKeep today e := by
  unfold upKeep
  rw [getStrD_setKV_ne _ _ _ _ (by decide), getStrD_setKV_ne _ _ _ _ (by decide)]

theorem dateKeep_setKV_dist (a b c d : Option Int) (e : Record) (v : Value) :
    dateKeep a b c d (setKV e "distance_km" v) = dateKeep a b c d e := by
  unfold dateKeep
  rw [getStrD_setKV_ne _ _ _ _ (by decide), getStrD_setKV_ne _ _ _ _ (by decide)]

theorem catPred_setKV_dist (c : Option String) (e : Record) (v : Value) :
    catPred c (setKV e "distance_km" v) = catPred c e := by
  unfold catPred
  rw [textOr_setKV_ne _ _ _ _ (by decide)]

theorem nbPred_setKV_dist (c : Option String) (e : Record) (v : Value) :
    nbPred c (setKV e "distance_km" v) = nbPred c e := by
  unfold nbPred
  rw [textOr_setKV_ne _ _ _ _ (by decide)]

theorem haystackOf_setKV_dist (e : Record) (v : Value) :
    haystackOf (setKV e "distance_km" v) = haystackOf e := by
  unfold haystackOf haystackKeys
  simp only [List.filterMap]
  rw [lookupKey_setKV_ne _ _ _ _ (by decide), lookupKey_setKV_ne _ _ _ _ (by decide),
    lookupKey_setKV_ne _ _ _ _ (by decide), lookupKey_setKV_ne _ _ _ _ (by decide),
    lookupKey_setKV_ne _ _ _ _ (by decide), lookupKey_setKV_ne _ _ _ _ (by decide)]

theorem searchKeepB_setKV_dist (q : List Char) (toks : List (List Char))
    (e : Record) (v : Value) :
    searchKeepB q toks (setKV e "distance_km" v) = searchKeepB q toks e := by
  unfold searchKeepB
  rw [haystackOf_setKV_dist]

theorem searchPredB_setKV_dist (se : Option String) (e : Record) (v : Value) :
    searchPredB se (setKV e "distance_km" v) = searchPredB se e := by
  unfold searchPredB
  by_cases h : truthyS se = true
  · simp [h, searchKeepB_setKV_dist]
  · simp [h]

theorem coordOf_locAttach (dist : ℚ → ℚ → ℚ → ℚ → ℚ) (lat lon : ℚ) (e : Record)
    (k : String) (h : k ≠ "distance_km") :
    coordOf (locAttach dist lat lon e) k = coordOf e k := by
  unfold locAttach
  exact coordOf_setKV_ne _ _ _ _ h

theorem locKeepB_locAttach (dist : ℚ → ℚ → ℚ → ℚ → ℚ) (lat lon radius : ℚ)
    (e : Record) :
    locKeepB dist lat lon radius (locAttach dist lat lon e) =
      locKeepB dist lat lon radius e := by
  unfold locKeepB
  rw [coordOf_locAttach _ _ _ _ _ (by decide), coordOf_locAttach _ _ _ _ _ (by decide)]

theorem locAttach_locAttach (dist : ℚ → ℚ → ℚ → ℚ → ℚ) (lat lon : ℚ)
    (e : Record) :
    locAttach dist lat lon (locAttach dist lat lon e) = locAttach dist lat lon e := by
  conv_lhs => rw [locAttach]
  rw [coordOf_locAttach _ _ _ _ _ (by decide), coordOf_locAttach _ _ _ _ _ (by decide)]
  unfold locAttach
  rw [setKV_setKV]

/-! ### The pre-location pipeline as one filter -/

/-- Conjunction of the five filter-stage predicates, associated the way the
stage composition produces it. -/
def pipeKeep (today : Int) (b1 b2 edf edt cat nb se : Option String)
    (e : Record) : Bool :=
  (((searchPredB se e && nbPred nb e) && catPred cat e) &&
      dateKeep (activeBound b1) (activeBound b2) (activeBound edf)
        (activeBound edt) e) &&
    upKeep today e

theorem stages_eq_filter (today : Int) (b1 b2 edf edt cat nb se : Option String)
    (l : List Record) :
    filter_by_search
      (filter_by_neighborhood
        (filter_by_category
          (filter_by_date (filter_upcoming today l) b1 b2 edf edt) cat) nb) se =
    l.filter (pipeKeep today b1 b2 edf edt cat nb se) := by
  rw [filter_upcoming_eq_filter, filter_by_date_eq_filter,
    filter_by_category_eq_filter, filter_by_neighborhood_eq_filter,
    filter_by_search_eq_filter, List.filter_filter, List.filter_filter,
    List.filter_filter, List.filter_filter]
  rfl

theorem pipeKeep_setKV_dist (today : Int) (b1 b2 edf edt cat nb se : Option String)
    (e : Record) (v : Value) :
    pipeKeep today b1 b2 edf edt cat nb se (setKV e "distance_km" v) =
      pipeKeep today b1 b2 edf edt cat nb se e := by
  simp only [pipeKeep, upKeep_setKV_dist, dateKeep_setKV_dist, catPred_setKV_dist,
    nbPred_setKV_dist, searchPredB_setKV_dist]

theorem pipeKeep_locAttach (today : Int) (b1 b2 edf edt cat nb se : Option String)
    (dist : ℚ → ℚ → ℚ → ℚ → ℚ) (lat lon : ℚ) (e : Record) :
    pipeKeep today b1 b2 edf edt cat nb se (locAttach dist lat lon e) =
      pipeKeep today b1 b2 edf edt cat nb se e := by
  unfold locAttach
  exact pipeKeep_setKV_dist _ _ _ _ _ _ _ _ _ _

/-- C3 helper: one application of the full pipeline, written as the location
stage over a single filter. -/
theorem apply_all_filters_eq (today : Int) (dist : ℚ → ℚ → ℚ → ℚ → ℚ)
    (events : List Record) (sdf sdt edf edt : Option String)
    (lat lon : Option ℚ) (radius : ℚ) (cat nb se rel : Option String) :
    apply_all_filters today dist events sdf sdt edf edt lat lon radius cat nb se rel =
      filter_by_location dist
        (events.filter (pipeKeep today (resolveWindow today rel sdf sdt).1
          (resolveWindow today rel sdf sdt).2 edf edt cat nb se))
        lat lon radius := by
  simp only [apply_all_filters]
  rw [stages_eq_filter]

/-- C3: applying `apply_all_filters` a second time with the same parameters
(and the same fixed current date) to the output of a first application
returns that output unchanged, including the attached distances and their
order. -/
theorem apply_all_filters_idempotent (today : Int) (dist : ℚ → ℚ → ℚ → ℚ → ℚ)
    (events : List Record) (sdf sdt edf edt : Option String)
    (lat lon : Option ℚ) (radius : ℚ) (cat nb se rel : Option String) :
    apply_all_filters today dist
      (apply_all_filters today dist events sdf sdt edf edt lat lon radius cat nb se rel)
      sdf sdt edf edt lat lon radius cat nb se rel =
    apply_all_filters today dist events sdf sdt edf edt lat lon radius cat nb se rel := by
  rw [apply_all_filters_eq, apply_all_filters_eq]
  set K := pipeKeep today (resolveWindow today rel sdf sdt).1
    (resolveWindow today rel sdf sdt).2 edf edt cat nb se with hK
  cases lat with
  | none =>
    simp only [filter_by_location]
    exact List.filter_eq_self.mpr (fun a ha => (List.mem_filter.mp ha).2)
  | some la =>
    cases lon with
    | none =>
      simp only [filter_by_location]
      exact List.filter_eq_self.mpr (fun a ha => (List.mem_filter.mp ha).2)
    | some lo =>
      rw [filter_by_location_some, filter_by_location_some]
      set X := events.filter K with hX
      set Lk := locKeepB dist la lo radius with hLk
      set La := locAttach dist la lo with hLa
      set Out := List.insertionSort distRel ((X.filter Lk).map La) with hOut
      have hmem : ∀ x ∈ Out, ∃ y ∈ X.filter Lk, La y = x := by
        intro x hx
        have : x ∈ (X.filter Lk).map La :=
          ((List.perm_insertionSort distRel _).mem_iff).mp hx
        exact List.mem_map.mp this
      have hfK : Out.filter K = Out := by
        refine List.filter_eq_self.mpr (fun x hx => ?_)
        obtain ⟨y, hy, hxy⟩ := hmem x hx
        have hyK : K y = true :=
          (List.mem_filter.mp (List.mem_filter.mp hy).1).2
        rw [← hxy, hLa, hK, pipeKeep_locAttach]
        exact hyK
      have hfLk : Out.filter Lk = Out := by
        refine List.filter_eq_self.mpr (fun x hx => ?_)
        obtain ⟨y, hy, hxy⟩ := hmem x hx
        have hyL : Lk y = true := (List.mem_filter.mp hy).2
        rw [← hxy, hLa, hLk, locKeepB_locAttach]
        exact hyL
      have hmap : Out.map La = Out := by
        have h1 : Out.map La = Out.map id := by
          refine List.map_congr_left (fun x hx => ?_)
          obtain ⟨y, hy, hxy⟩ := hmem x hx
          rw [← hxy, hLa, locAttach_locAttach]
          rfl
        rw [h1, List.map_id]
      have hsorted : List.Sorted distRel Out := by
        rw [hOut]
        exact List.sorted_insertionSort distRel _
      rw [hfK, hfLk, hmap]
      exact List.Sorted.insertionSort_eq hsorted

/-! ### C4: the upcoming filter -/

theorem upKeep_eq_true_iff (today : Int) (e : Record) :
    upKeep today e = true ↔
      ((∃ d, parseDateValue (getStrD e "event_start_date") = some d ∧ today ≤ d) ∨
       (∃ d, parseDateValue (getStrD e "event_end_date") = some d ∧ today ≤ d) ∨
       (parseDateValue (getStrD e "event_start_date") = none ∧
        parseDateValue (getStrD e "event_end_date") = none)) := by
  unfold upKeep upcomingKeepB
  cases h1 : parseDateValue (getStrD e "event_start_date") <;>
    cases h2 : parseDateValue (getStrD e "event_end_date") <;> simp

/-- C4: for a fixed current date, `filter_upcoming` keeps a record exactly
when its parsed start date is today or later, or its parsed end date is today
or later, or neither date field parses; in particular records with two
unparseable dates are always retained. -/
theorem filter_upcoming_mem_iff (today : Int) (events : List Record) (r : Record) :
    r ∈ filter_upcoming today events ↔
      r ∈ events ∧
        ((∃ d, parseDateValue (getStrD r "event_start_date") = some d ∧ today ≤ d) ∨
         (∃ d, parseDateValue (getStrD r "event_end_date") = some d ∧ today ≤ d) ∨
         (parseDateValue (getStrD r "event_start_date") = none ∧
          parseDateValue (getStrD r "event_end_date") = none)) := by
  rw [filter_upcoming_eq_filter, List.mem_filter, upKeep_eq_true_iff]

/-! ### C5: the date-range filter -/

theorem dateDropB_eq_true_iff (a b c d : Option Int) (es en : Option Int) :
    dateDropB a b c d es en = true ↔
      ((∃ dv f, es = some dv ∧ a = some f ∧ dv < f) ∨
       (∃ dv t, es = some dv ∧ b = some t ∧ t < dv) ∨
       (∃ dv f, en = some dv ∧ c = some f ∧ dv < f) ∨
       (∃ dv t, en = some dv ∧ d = some t ∧ t < dv)) := by
  unfold dateDropB
  cases a <;> cases b <;> cases c <;> cases d <;> cases es <;> cases en <;>
    simp [or_assoc]

/-- C5: `filter_by_date` drops a record exactly when some parsed date of the
record is outside a supplied-and-parseable bound (`activeBound`); an
unparseable record date is never excluded by its bounds, an unparseable bound
string is inactive, and when no bound is supplied the batch is returned
unchanged. -/
theorem filter_by_date_spec (events : List Record)
    (sdf sdt edf edt : Option String) :
    ((truthyS sdf = false ∧ truthyS sdt = false ∧ truthyS edf = false ∧
        truthyS edt = false) →
      filter_by_date events sdf sdt edf edt = events) ∧
    (∀ r, r ∈ filter_by_date events sdf sdt edf edt ↔
      r ∈ events ∧
        ¬((∃ dv f, parseDateValue (getStrD r "event_start_date") = some dv ∧
              activeBound sdf = some f ∧ dv < f) ∨
          (∃ dv t, parseDateValue (getStrD r "event_start_date") = some dv ∧
              activeBound sdt = some t ∧ t < dv) ∨
          (∃ dv f, parseDateValue (getStrD r "event_end_date") = some dv ∧
              activeBound edf = some f ∧ dv < f) ∨
          (∃ dv t, parseDateValue (getStrD r "event_end_date") = some dv ∧
              activeBound edt = some t ∧ t < dv))) := by
  constructor
  · rintro ⟨h1, h2, h3, h4⟩
    simp [filter_by_date, h1, h2, h3, h4]
  · intro r
    have h := dateDropB_eq_true_iff (activeBound sdf) (activeBound sdt)
      (activeBound edf) (activeBound edt)
      (parseDateValue (getStrD r "event_start_date"))
      (parseDateValue (getStrD r "event_end_date"))
    rw [filter_by_date_eq_filter, List.mem_filter]
    unfold dateKeep
    rw [← h]
    simp

/-! ### C1 and C9: the location filter -/

theorem mem_filter_by_location (dist : ℚ → ℚ → ℚ → ℚ → ℚ) (events : List Record)
    (lat lon radius : ℚ) (r' : Record) :
    r' ∈ filter_by_location dist events (some lat) (some lon) radius ↔
      ∃ e ∈ events, locKeepB dist lat lon radius e = true ∧
        r' = locAttach dist lat lon e := by
  rw [filter_by_location_some, (List.perm_insertionSort distRel _).mem_iff]
  simp only [List.mem_map, List.mem_filter]
  constructor
  · rintro ⟨e, ⟨he, hk⟩, heq⟩
    exact ⟨e, he, hk, heq.symm⟩
  · rintro ⟨e, he, hk, heq⟩
    exact ⟨e, ⟨he, hk⟩, heq.symm⟩

theorem locKeepB_elim (dist : ℚ → ℚ → ℚ → ℚ → ℚ) (lat lon radius : ℚ)
    (e : Record) (h : locKeepB dist lat lon radius e = true) :
    ∃ la lo : ℚ, coordOf e "latitude" = some la ∧ coordOf e "longitude" = some lo ∧
      la ≠ 0 ∧ lo ≠ 0 ∧ dist lat lon la lo ≤ radius ∧
      locAttach dist lat lon e =
        setKV e "distance_km" (Value.q (round2 (dist lat lon la lo))) := by
  cases h1 : coordOf e "latitude" with
  | none => exact absurd h (by simp [locKeepB, h1])
  | some la =>
    cases h2 : coordOf e "longitude" with
    | none => exact absurd h (by simp [locKeepB, h1, h2])
    | some lo =>
      by_cases hz : la = 0 ∨ lo = 0
      · exact absurd h (by simp [locKeepB, h1, h2, hz])
      · by_cases hr : dist lat lon la lo ≤ radius
        · push_neg at hz
          exact ⟨la, lo, rfl, rfl, hz.1, hz.2, hr, by simp [locAttach, h1, h2]⟩
        · exact absurd h (by simp [locKeepB, h1, h2, hz, hr])

/-- C1 (amended): with both centre coordinates supplied, the location
filter's output is sorted non-decreasing by the attached `distance_km` key,
and every returned record is a copy of an input record whose coordinates
coerce to nonzero floats, whose unrounded distance to the centre is within
`radius_km`, carrying that distance rounded to two decimals as
`distance_km`.  (The rounded value itself may exceed `radius_km` by up to
0.005; see the counterexample.) -/
theorem filter_by_location_sorted_within (dist : ℚ → ℚ → ℚ → ℚ → ℚ)
    (events : List Record) (lat lon radius : ℚ) :
    List.Sorted distRel (filter_by_location dist events (some lat) (some lon) radius) ∧
    ∀ r' ∈ filter_by_location dist events (some lat) (some lon) radius,
      ∃ e ∈ events, ∃ la lo : ℚ,
        coordOf e "latitude" = some la ∧ coordOf e "longitude" = some lo ∧
        la ≠ 0 ∧ lo ≠ 0 ∧
        dist lat lon la lo ≤ radius ∧
        r' = setKV e "distance_km" (Value.q (round2 (dist lat lon la lo))) ∧
        lookupKey r' "distance_km" = some (Value.q (round2 (dist lat lon la lo))) := by
  constructor
  · rw [filter_by_location_some]
    exact List.sorted_insertionSort distRel _
  · intro r' hr'
    obtain ⟨e, he, hk, heq⟩ := (mem_filter_by_location dist events lat lon radius r').mp hr'
    obtain ⟨la, lo, h1, h2, hz1, hz2, hr, hatt⟩ := locKeepB_elim dist lat lon radius e hk
    refine ⟨e, he, la, lo, h1, h2, hz1, hz2, hr, ?_, ?_⟩
    · rw [heq, hatt]
    · rw [heq, hatt]
      exact lookupKey_setKV_eq _ _ _

/-- Distance function used by the concrete location-filter instances: a
constant 4.999 km. -/
def distCex1 : ℚ → ℚ → ℚ → ℚ → ℚ := fun _ _ _ _ => 4999 / 1000

/-- A record with parseable nonzero coordinates. -/
def recW : Record := [("latitude", Value.s "1"), ("longitude", Value.s "1")]

/-- C1 counterexample: with `radius_km = 4.999` and a record at (unrounded)
distance 4.999, the record is kept and carries `distance_km = 5.00`, which
exceeds `radius_km` - refuting the claim that the attached `distance_km` is
always at most `radius_km`. -/
theorem filter_by_location_round_exceeds_radius :
    filter_by_location distCex1 [recW] (some 0) (some 0) (4999 / 1000) =
      [setKV recW "distance_km" (Value.q 5)] ∧
    lookupKey (setKV recW "distance_km" (Value.q 5)) "distance_km" =
      some (Value.q 5) ∧
    ¬((5 : ℚ) ≤ 4999 / 1000) := by
  with_unfolding_all decide

/-- Constant 2 km distance function for witnesses. -/
def distW : ℚ → ℚ → ℚ → ℚ → ℚ := fun _ _ _ _ => 2

theorem filter_by_location_sorted_within_witness :
    List.Sorted distRel (filter_by_location distW [recW] (some 0) (some 0) 10) ∧
    (∃ e ∈ [recW], ∃ la lo : ℚ,
      coordOf e "latitude" = some la ∧ coordOf e "longitude" = some lo ∧
      la ≠ 0 ∧ lo ≠ 0 ∧
      distW 0 0 la lo ≤ 10 ∧
      setKV recW "distance_km" (Value.q 2) =
        setKV e "distance_km" (Value.q (round2 (distW 0 0 la lo))) ∧
      lookupKey (setKV recW "distance_km" (Value.q 2)) "distance_km" =
        some (Value.q (round2 (distW 0 0 la lo)))) :=
  ⟨(filter_by_location_sorted_within distW [recW] 0 0 10).1,
   (filter_by_location_sorted_within distW [recW] 0 0 10).2
     (setKV recW "distance_km" (Value.q 2)) (by with_unfolding_all decide)⟩

/-- C9 (amended): every record returned by the location filter is a copy of
an input record with `distance_km` set to the computed value (added, or
overwritten if the input already carried one) and all other keys unchanged;
the embedding is pure, so input records are never mutated. -/
theorem filter_by_location_copies (dist : ℚ → ℚ → ℚ → ℚ → ℚ)
    (events : List Record) (lat lon radius : ℚ) :
    ∀ r' ∈ filter_by_location dist events (some lat) (some lon) radius,
      ∃ e ∈ events, ∃ v : ℚ,
        r' = setKV e "distance_km" (Value.q v) ∧
        lookupKey r' "distance_km" = some (Value.q v) ∧
        ∀ k : String, k ≠ "distance_km" → lookupKey r' k = lookupKey e k := by
  intro r' hr'
  obtain ⟨e, he, hk, heq⟩ := (mem_filter_by_location dist events lat lon radius r').mp hr'
  obtain ⟨la, lo, _, _, _, _, _, hatt⟩ := locKeepB_elim dist lat lon radius e hk
  refine ⟨e, he, round2 (dist lat lon la lo), by rw [heq, hatt], ?_, ?_⟩
  · rw [heq, hatt]
    exact lookupKey_setKV_eq _ _ _
  · intro k hkne
    rw [heq, hatt]
    exact lookupKey_setKV_ne _ _ _ _ hkne

theorem filter_by_location_copies_witness :
    ∃ e ∈ [recW], ∃ v : ℚ,
      setKV recW "distance_km" (Value.q 2) = setKV e "distance_km" (Value.q v) ∧
      lookupKey (setKV recW "distance_km" (Value.q 2)) "distance_km" =
        some (Value.q v) ∧
      ∀ k : String, k ≠ "distance_km" →
        lookupKey (setKV recW "distance_km" (Value.q 2)) k = lookupKey e k :=
  filter_by_location_copies distW [recW] 0 0 10
    (setKV recW "distance_km" (Value.q 2)) (by with_unfolding_all decide)

/-- A record that already carries a `distance_km` key before filtering. -/
def recCex9 : Record :=
  [("latitude", Value.s "1"), ("longitude", Value.s "1"), ("distance_km", Value.q 99)]

/-- Constant 1 km distance function for the overwrite counterexample. -/
def distCex9 : ℚ → ℚ → ℚ → ℚ → ℚ := fun _ _ _ _ => 1

/-- C9 counterexample: when an input record already has a `distance_km` key,
the returned copy has that pair overwritten, not the original pairs plus one
added key - the original pair `("distance_km", 99)` is absent from the
output record. -/
theorem filter_by_location_overwrites_cex :
    filter_by_location distCex9 [recCex9] (some 0) (some 0) 10 =
      [[("latitude", Value.s "1"), ("longitude", Value.s "1"),
        ("distance_km", Value.q 1)]] ∧
    ("distance_km", Value.q 99) ∈ recCex9 ∧
    ("distance_km", Value.q 99) ∉
      ([("latitude", Value.s "1"), ("longitude", Value.s "1"),
        ("distance_km", Value.q 1)] : Record) := by
  with_unfolding_all decide

/-! ### C10: order-preserving stages -/

/-- C10: every stage except the location filter returns a subsequence of its
input (the records themselves, in their original relative order); hence the
whole pipeline preserves input order whenever a centre coordinate is absent. -/
theorem pipeline_stages_sublist :
    (∀ (today : Int) (l : List Record), (filter_upcoming today l).Sublist l) ∧
    (∀ (l : List Record) (a b c d : Option String),
      (filter_by_date l a b c d).Sublist l) ∧
    (∀ (l : List Record) (c : Option String), (filter_by_category l c).Sublist l) ∧
    (∀ (l : List Record) (c : Option String),
      (filter_by_neighborhood l c).Sublist l) ∧
    (∀ (l : List Record) (s : Option String), (filter_by_search l s).Sublist l) ∧
    (∀ (today : Int) (dist : ℚ → ℚ → ℚ → ℚ → ℚ) (l : List Record)
      (sdf sdt edf edt : Option String) (lon : Option ℚ) (radius : ℚ)
      (cat nb se rel : Option String),
      (apply_all_filters today dist l sdf sdt edf edt none lon radius
        cat nb se rel).Sublist l) ∧
    (∀ (today : Int) (dist : ℚ → ℚ → ℚ → ℚ → ℚ) (l : List Record)
      (sdf sdt edf edt : Option String) (lat : Option ℚ) (radius : ℚ)
      (cat nb se rel : Option String),
      (apply_all_filters today dist l sdf sdt edf edt lat none radius
        cat nb se rel).Sublist l) := by
  refine ⟨?_, ?_, ?_, ?_, ?_, ?_, ?_⟩
  · intro today l
    rw [filter_upcoming_eq_filter]
    exact List.filter_sublist l
  · intro l a b c d
    rw [filter_by_date_eq_filter]
    exact List.filter_sublist l
  · intro l c
    rw [filter_by_category_eq_filter]
    exact List.filter_sublist l
  · intro l c
    rw [filter_by_neighborhood_eq_filter]
    exact List.filter_sublist l
  · intro l s
    rw [filter_by_search_eq_filter]
    exact List.filter_sublist l
  · intro today dist l sdf sdt edf edt lon radius cat nb se rel
    rw [apply_all_filters_eq]
    simp only [filter_by_location]
    exact List.filter_sublist l
  · intro today dist l sdf sdt edf edt lat radius cat nb se rel
    rw [apply_all_filters_eq]
    cases lat <;> simp only [filter_by_location] <;> exact List.filter_sublist l

/-- A record with a parseable start date, for the C5 witness. -/
def recDateW : Record := [("event_start_date", Value.s "2024-03-05")]

theorem filter_by_date_spec_witness :
    filter_by_date [recDateW] none none none none = [recDateW] :=
  (filter_by_date_spec [recDateW] none none none none).1 (by decide)

/-! ### C2: the fuzzy-match short-circuit -/

theorem le_tokenBestFull (tok : List Char) (cs : List (List Char)) (b : ℚ) :
    b ≤ tokenBestFull tok b cs := by
  induction cs generalizing b with
  | nil => simp [tokenBestFull]
  | cons c cs ih =>
    simp only [tokenBestFull]
    generalize hb2 : (if b < ratio tok c then ratio tok c else b) = b2
    refine le_trans ?_ (ih b2)
    rw [← hb2]
    split
    · exact le_of_lt (by assumption)
    · exact le_refl b

theorem tokenBestBreak_le_full (tok : List Char) (cs : List (List Char)) (b : ℚ) :
    tokenBestBreak tok b cs ≤ tokenBestFull tok b cs := by
  induction cs generalizing b with
  | nil => simp [tokenBestBreak, tokenBestFull]
  | cons c cs ih =>
    simp only [tokenBestBreak, tokenBestFull]
    generalize (if b < ratio tok c then ratio tok c else b) = b2
    split
    · exact le_tokenBestFull tok cs b2
    · exact ih b2

/-- C2 (amended): the 0.75 short-circuit can only lower per-token best
scores, so a match under the implementation is always a match under the
spec's no-short-circuit variant; the converse fails (see the
counterexample). -/
theorem fuzzy_match_implies_nobreak (q : List Char) (toks : List (List Char))
    (h : List Char) :
    fuzzy_match q toks h = true → fuzzy_match_nobreak q toks h = true := by
  unfold fuzzy_match fuzzy_match_nobreak
  intro hm
  by_cases hg : 11 / 20 ≤ ratio q h
  · simp [hg]
  · rw [if_neg hg] at hm ⊢
    by_cases ht : toks.isEmpty
    · rw [if_pos ht] at hm; cases hm
    · rw [if_neg ht] at hm ⊢
      by_cases hh : (splitTokens h).isEmpty
      · rw [if_pos hh] at hm; cases hm
      · rw [if_neg hh] at hm ⊢
        dsimp only at hm ⊢
        have hlen : toks ≠ [] := by
          intro hnil; rw [hnil] at ht; exact ht rfl
        have hmapB : (toks.map (fun t => tokenBestBreak t 0 (splitTokens h))).isEmpty = false := by
          cases toks with
          | nil => exact absurd rfl hlen
          | cons a as => rfl
        have hmapF : (toks.map (fun t => tokenBestFull t 0 (splitTokens h))).isEmpty = false := by
          cases toks with
          | nil => exact absurd rfl hlen
          | cons a as => rfl
        rw [hmapB] at hm
        rw [hmapF]
        simp only [Bool.false_eq_true, if_false] at hm ⊢
        have hsum : (toks.map (fun t => tokenBestBreak t 0 (splitTokens h))).sum ≤
            (toks.map (fun t => tokenBestFull t 0 (splitTokens h))).sum :=
          List.sum_le_sum (fun t _ => tokenBestBreak_le_full t (splitTokens h) 0)
        have hlenpos : (0 : ℚ) ≤ (toks.length : ℚ) := by positivity
        simp only [List.length_map] at hm ⊢
        simp only [decide_eq_true_eq] at hm ⊢
        calc (31 : ℚ) / 50
            ≤ (toks.map (fun t => tokenBestBreak t 0 (splitTokens h))).sum / toks.length := hm
          _ ≤ (toks.map (fun t => tokenBestFull t 0 (splitTokens h))).sum / toks.length :=
              div_le_div_of_nonneg_right hsum hlenpos

set_option maxRecDepth 100000 in
theorem fuzzy_match_implies_nobreak_witness :
    fuzzy_match_nobreak ("jazz".toList) ["jazz".toList] ("jazz night".toList) = true :=
  fuzzy_match_implies_nobreak _ _ _ (by with_unfolding_all decide)

set_option maxRecDepth 100000 in
/-- C2 counterexample: a concrete query, token list and haystack on which the
implementation (with the 0.75 early exit) rejects while the no-short-circuit
variant accepts - the short-circuit changes the match decision.  (Checked
against CPython `difflib`: the whole-string ratio is 3/7, the first token
scores 0.75 against the first haystack token, triggering the break before the
exact match later in the haystack.) -/
theorem fuzzy_match_break_changes_decision :
    fuzzy_match ("abcd mn".toList) ["abcd".toList, "mn".toList]
        ("abcz abcd mzz qqqqqqq".toList) = false ∧
    fuzzy_match_nobreak ("abcd mn".toList) ["abcd".toList, "mn".toList]
        ("abcz abcd mzz qqqqqqq".toList) = true := by
  with_unfolding_all decide

/-! ### C6: the relative-date window -/

/-- C6: a keyword normalising to `weekend`/`this weekend` yields the ISO pair
(Saturday, Sunday) with the Saturday `(5 - weekday(today)) mod 7` days ahead
of today (never in the past, and today itself when today is a Saturday), and
Sunday one day later; any keyword outside the recognised set yields
`(none, none)`. -/
theorem relative_date_window_spec (today : Int) (kw : String) :
    ((normKw kw = "weekend" ∨ normKw kw = "this weekend") →
      relative_date_window today kw =
        (some (isoformat (today + (5 - pyWeekday today) % 7)),
         some (isoformat (today + (5 - pyWeekday today) % 7 + 1))) ∧
      today ≤ today + (5 - pyWeekday today) % 7 ∧
      (pyWeekday today = 5 → today + (5 - pyWeekday today) % 7 = today)) ∧
    ((normKw kw ≠ "today" ∧ normKw kw ≠ "tonight" ∧ normKw kw ≠ "tomorrow" ∧
      normKw kw ≠ "tmrw" ∧ normKw kw ≠ "weekend" ∧ normKw kw ≠ "this weekend") →
      relative_date_window today kw = (none, none)) := by
  constructor
  · intro hkw
    refine ⟨?_, ?_, ?_⟩
    · unfold relative_date_window
      rcases hkw with h | h <;> rw [h] <;>
        rw [rdwAux, if_neg (by decide), if_neg (by decide), if_neg (by decide),
          if_pos (by decide)]
    · have h7 : 0 ≤ (5 - pyWeekday today) % 7 := Int.emod_nonneg _ (by norm_num)
      omega
    · intro h5
      rw [h5]
      norm_num
  · rintro ⟨h1, h2, h3, h4, h5, h6⟩
    unfold relative_date_window
    by_cases h0 : normKw kw = ""
    · rw [rdwAux, if_pos h0]
    · have b1 : (normKw kw == "today") = false := beq_eq_false_iff_ne.mpr h1
      have b2 : (normKw kw == "tonight") = false := beq_eq_false_iff_ne.mpr h2
      have b3 : (normKw kw == "tomorrow") = false := beq_eq_false_iff_ne.mpr h3
      have b4 : (normKw kw == "tmrw") = false := beq_eq_false_iff_ne.mpr h4
      have b5 : (normKw kw == "weekend") = false := beq_eq_false_iff_ne.mpr h5
      have b6 : (normKw kw == "this weekend") = false := beq_eq_false_iff_ne.mpr h6
      have hlook : List.lookup (normKw kw) RELATIVE_DATE_KEYWORDS = none := by
        simp [RELATIVE_DATE_KEYWORDS, List.lookup, b1, b2, b3, b4, b5, b6]
      rw [rdwAux, if_neg h0, if_neg (by tauto), if_neg (by tauto), if_neg (by tauto)]
      rw [hlook]

theorem relative_date_window_spec_witness :
    (relative_date_window 738950 " This WEEKEND " =
      (some (isoformat (738950 + (5 - pyWeekday 738950) % 7)),
       some (isoformat (738950 + (5 - pyWeekday 738950) % 7 + 1))) ∧
     (738950 : Int) ≤ 738950 + (5 - pyWeekday 738950) % 7 ∧
     (pyWeekday 738950 = 5 → (738950 : Int) + (5 - pyWeekday 738950) % 7 = 738950)) ∧
    relative_date_window 738950 "next week" = (none, none) :=
  ⟨(relative_date_window_spec 738950 " This WEEKEND ").1 (by decide),
   (relative_date_window_spec 738950 "next week").2 (by decide)⟩

/-! ### C7: the date parser's contract -/

theorem mkValidDate_pos (y m d : Nat) (o : Int) (h : mkValidDate y m d = some o) :
    1 ≤ o := by
  unfold mkValidDate at h
  split at h
  · next hcond =>
    obtain rfl : ymd2ord y m d = o := Option.some.inj h
    simp only [Bool.and_eq_true, decide_eq_true_eq] at hcond
    unfold ymd2ord
    have hd : 1 ≤ d := hcond.1.2
    omega
  · cases h

theorem parse_iso_date_part_pos (cs : List Char) (o : Int)
    (h : parse_iso_date_part cs = some o) : 1 ≤ o := by
  unfold parse_iso_date_part at h
  split at h
  · split at h
    · exact mkValidDate_pos _ _ _ _ h
    · cases h
  · cases h

theorem fromisoformat_date_pos (cs : List Char) (o : Int)
    (h : fromisoformat_date cs = some o) : 1 ≤ o := by
  unfold fromisoformat_date at h
  split at h
  · next p heq =>
    cases hp : parse_iso_date_part p.1 with
    | none => rw [hp] at h; cases h
    | some d =>
      rw [hp] at h
      split at h
      · next d2 heq2 =>
        split at h
        · obtain rfl := Option.some.inj h
          obtain rfl := Option.some.inj heq2
          exact parse_iso_date_part_pos _ _ hp
        · cases h
      · next heq2 => cases h
  · exact parse_iso_date_part_pos _ _ h

theorem strptime_ymd_pos (cs : List Char) (o : Int)
    (h : strptime_ymd cs = some o) : 1 ≤ o := by
  unfold strptime_ymd at h
  dsimp only at h
  split at h
  · split at h
    · split at h
      · split at h
        · split at h
          · exact mkValidDate_pos _ _ _ _ h
          · cases h
        · cases h
      · cases h
    · cases h
  · cases h

/-- C7: the date parser totalises parse failures to `none`: `None` and empty
inputs give no date, a string containing `T` is parsed as an ISO date-time
after truncation at the first dot, any other nonempty string through
`%Y-%m-%d`, and every successful parse is a genuine (positive-ordinal)
calendar date; concrete anchors exercise each path. -/
theorem parse_date_string_spec :
    parseDateValue Value.null = none ∧
    parse_date_string "" = none ∧
    (∀ s : String, 'T' ∈ s.toList → s.toList ≠ [] →
      parse_date_string s = fromisoformat_date (truncDot s.toList)) ∧
    (∀ s : String, 'T' ∉ s.toList → s.toList ≠ [] →
      parse_date_string s = strptime_ymd s.toList) ∧
    (∀ (s : String) (o : Int), parse_date_string s = some o → 1 ≤ o) ∧
    parse_date_string "2024-03-05" = some (ymd2ord 2024 3 5) ∧
    parse_date_string "2024-03-05T10:20:30.123456" = some (ymd2ord 2024 3 5) ∧
    parse_date_string "05/03/2024" = none := by
  refine ⟨rfl, rfl, ?_, ?_, ?_, ?_, ?_, ?_⟩
  · intro s h1 h2
    simp only [String.toList] at h1 h2
    simp [parse_date_string, String.toList, h1, h2]
  · intro s h1 h2
    simp only [String.toList] at h1 h2
    simp [parse_date_string, String.toList, h1, h2]
  · intro s o h
    unfold parse_date_string at h
    dsimp only at h
    split at h
    · cases h
    · split at h
      · exact fromisoformat_date_pos _ _ h
      · exact strptime_ymd_pos _ _ h
  · decide
  · decide
  · decide

theorem parse_date_string_spec_witness :
    parse_date_string "2024-03-05T10:20" =
      fromisoformat_date (truncDot ("2024-03-05T10:20".toList)) ∧
    parse_date_string "2024-12-31" = strptime_ymd ("2024-12-31".toList) ∧
    (1 : Int) ≤ ymd2ord 2024 3 5 :=
  ⟨parse_date_string_spec.2.2.1 "2024-03-05T10:20" (by decide) (by decide),
   parse_date_string_spec.2.2.2.1 "2024-12-31" (by decide) (by decide),
   parse_date_string_spec.2.2.2.2.1 "2024-03-05" (ymd2ord 2024 3 5)
     parse_date_string_spec.2.2.2.2.2.1⟩

/-! ### C8: algebraic laws of the haversine distance -/

/-- C8: the haversine distance is zero on identical coordinate pairs and
symmetric in its two coordinate pairs. -/
theorem calculate_distance_zero_and_symm :
    (∀ lat lon : ℝ, calculate_distance lat lon lat lon = 0) ∧
    (∀ a b c d : ℝ, calculate_distance a b c d = calculate_distance c d a b) := by
  have hA0 : ∀ lat lon : ℝ, haversine_a lat lon lat lon = 0 := by
    intro lat lon
    simp [haversine_a]
  have key : ∀ u v x y : ℝ,
      Real.sin ((u - v) / 2) ^ 2 + Real.cos v * Real.cos u * Real.sin ((x - y) / 2) ^ 2 =
      Real.sin ((v - u) / 2) ^ 2 + Real.cos u * Real.cos v * Real.sin ((y - x) / 2) ^ 2 := by
    intro u v x y
    rw [show (u - v) / 2 = -((v - u) / 2) by ring,
      show (x - y) / 2 = -((y - x) / 2) by ring, Real.sin_neg, Real.sin_neg,
      neg_sq, neg_sq, mul_comm (Real.cos v) (Real.cos u)]
  have hAsymm : ∀ a b c d : ℝ, haversine_a a b c d = haversine_a c d a b := by
    intro a b c d
    unfold haversine_a
    exact key (c * Real.pi / 180) (a * Real.pi / 180) (d * Real.pi / 180)
      (b * Real.pi / 180)
  constructor
  · intro lat lon
    unfold calculate_distance
    rw [hA0]
    simp [atan2, zero_lt_one]
  · intro a b c d
    unfold calculate_distance
    rw [hAsymm]

end SFEvents
